import Mathlib

/-!
Verification of the mongeasy persistence layer.

This file gives a shallow embedding of the parts of the mongeasy repository
that the verified properties talk about:

* `Document.__init__`, `has_changed`, `is_saved`, `save`, `delete` (both the
  instance method at document.py lines 167-178 and the classmethod at lines
  261-272 that shadows it), `get_by_id` and `insert_many` from
  `mongeasy/document.py`;
* `_validate` from `mongeasy/__init__.py`;
* `ResultList.reduce` and `ResultList.group_by` from `mongeasy/result_list.py`.

Python dictionaries are embedded as ordered association lists, the MongoDB
collection as an association list from identity value to record, and
exceptions as `Except` results.  bson ObjectId values are embedded as natural
numbers; parsing an ObjectId from a string succeeds exactly on strings of 24
hexadecimal characters, matching `bson.ObjectId`.
-/

namespace Mongeasy

/-- A field value as it can occur in a mongeasy document: Python `None`,
a bool, an int, a string, or a `bson.ObjectId` (embedded as a `Nat`).
Nested documents and lists are not needed by the verified properties. -/
inductive Value where
  | vnull : Value
  | vbool : Bool → Value
  | vint : Int → Value
  | vstr : String → Value
  | voidd : Nat → Value
deriving DecidableEq, Repr

/-- Lookup in an ordered association list; Python `dict[k]` / `dict.get(k)`.
Keys in a Python dict are unique, so first-match lookup agrees with it. -/
def lookupKey {α β : Type} [DecidableEq α] (k : α) : List (α × β) → Option β
  | [] => none
  | (a, b) :: rest => if a = k then some b else lookupKey k rest

/-- Remove a key from an association list; Python `del dict[k]`. -/
def removeKey {α β : Type} [DecidableEq α] (k : α) : List (α × β) → List (α × β)
  | [] => []
  | (a, b) :: rest => if a = k then removeKey k rest else (a, b) :: removeKey k rest

/-- Set a key in an association list, replacing the value in place if the key
is present (keeping its position, as a Python dict does) and appending the
binding otherwise. -/
def setKey {α β : Type} [DecidableEq α] (k : α) (v : β) : List (α × β) → List (α × β)
  | [] => [(k, v)]
  | (a, b) :: rest => if a = k then (k, v) :: rest else (a, b) :: setKey k v rest

/-- Apply a list of key updates from left to right; the `$set` part of a
MongoDB `update_one`. -/
def setMany {α β : Type} [DecidableEq α] : List (α × β) → List (α × β) → List (α × β)
  | base, [] => base
  | base, (k, v) :: rest => setMany (setKey k v base) rest

/-- The in-memory attribute dictionary of a document: `self.__dict__` in
`Document`.  After construction it always contains the key `"_id"`, holding
`Value.vnull` for a never-saved document. -/
abbrev AList := List (String × Value)

/-- A mongeasy `Document`: the wrapper around `self.__dict__`. -/
structure Doc where
  attrs : AList
deriving DecidableEq, Repr

/-- The backing MongoDB collection: records indexed by their `_id` value.
Records are the full stored documents (including their `"_id"` field). -/
abbrev Store := List (Value × AList)

/-- One loop iteration of `Document.has_changed` (document.py lines 84-93) for
the field `k` with in-memory value `v`: the code issues
`find_one({'_id': i}, {k: 1})` and marks the field changed only when a record
was found (`result` truthy), the key is present in the projected result
(`key in result`), and the stored value differs (`result[key] != value`). -/
def changedEntry (st : Store) (i : Value) (k : String) (v : Value) : Bool :=
  match lookupKey i st with
  | none => false
  | some record =>
    match lookupKey k record with
    | none => false
    | some w => decide (w ≠ v)

/-- `Document.has_changed` (document.py lines 75-94): returns `{}` when
`self._id is None`, otherwise the dict of fields (other than `'_id'`) whose
stored value exists and differs, each mapped to the in-memory value. -/
def Doc.has_changed (d : Doc) (st : Store) : AList :=
  match lookupKey "_id" d.attrs with
  | none => []
  | some i =>
    if i = Value.vnull then []
    else List.filter (fun kv => decide (kv.1 ≠ "_id") && changedEntry st i kv.1 kv.2) d.attrs

/-- `Document.is_saved` (document.py lines 96-101):
`not bool(self.has_changed())`. -/
def Doc.is_saved (d : Doc) (st : Store) : Bool :=
  (d.has_changed st).isEmpty

/-! ## Schema validation (`_validate` in mongeasy/__init__.py, lines 58-82) -/

/-- A Python type as it can appear in a schema descriptor's `type` entry. -/
inductive VType where
  | tBool | tInt | tStr | tOid
deriving DecidableEq, Repr

/-- `isinstance(value, type)` for the embedded values.  A Python `bool` is a
subclass of `int`, so a bool value satisfies the `int` type. -/
def Value.isInstance : Value → VType → Bool
  | Value.vbool _, VType.tBool => true
  | Value.vbool _, VType.tInt => true
  | Value.vint _, VType.tInt => true
  | Value.vstr _, VType.tStr => true
  | Value.voidd _, VType.tOid => true
  | _, _ => false

/-- One schema descriptor `{type, required, validator?}` for a field. -/
structure FieldSchema where
  ftype : VType
  required : Bool
  validator : Option (Value → Bool)

/-- A schema: mapping from field name to descriptor, in declaration order. -/
abbrev Schema := List (String × FieldSchema)

/-- The errors `_validate` can raise: `ValueError` for a failing custom
validator, `ValueError` for a missing required field, `TypeError` for a type
mismatch, `MongoFieldError` for a field not declared in the schema. -/
inductive ValErr where
  | invalidField (name : String)
  | requiredMissing (name : String)
  | wrongType (name : String)
  | notInSchema (name : String)
deriving DecidableEq, Repr

/-- `self.__dict__.get(field_name)`: Python returns `None` both for a missing
key and for a key bound to `None`. -/
def fieldValue (d : Doc) (name : String) : Value :=
  match lookupKey name d.attrs with
  | some v => v
  | none => Value.vnull

/-- The first loop of `_validate` (lines 63-77): per schema field, check the
custom validator, then that required fields are present (not `None`), then the
declared type for non-`None` values. -/
def validateFields (d : Doc) : Schema → Except ValErr Unit
  | [] => Except.ok ()
  | (name, fs) :: rest =>
    let fv := fieldValue d name
    if (match fs.validator with
        | some f => !(f fv)
        | none => false) then Except.error (ValErr.invalidField name)
    else if fs.required && decide (fv = Value.vnull) then
      Except.error (ValErr.requiredMissing name)
    else if decide (fv ≠ Value.vnull) && !(fv.isInstance fs.ftype) then
      Except.error (ValErr.wrongType name)
    else validateFields d rest

/-- The second loop of `_validate` (lines 80-82): every in-memory field other
than `'_id'` must be declared in the schema. -/
def validateAttrs (sch : Schema) : AList → Except ValErr Unit
  | [] => Except.ok ()
  | (k, _) :: rest =>
    if decide (k ≠ "_id") && (lookupKey k sch).isNone then Except.error (ValErr.notInSchema k)
    else validateAttrs sch rest

/-- `_validate` (mongeasy/__init__.py lines 58-82), the method injected as
`Document.validate` when a schema is provided. -/
def validate (sch : Schema) (d : Doc) : Except ValErr Unit :=
  match validateFields d sch with
  | Except.error e => Except.error e
  | Except.ok _ => validateAttrs sch d.attrs

/-! ## `Document.save` (document.py lines 103-132) -/

/-- The exceptions `save` can raise: `MongoDBCollectionError` when no
collection is bound, a validation error, `ValueError` when the update matched
no record, and `AttributeError` if the `_id` attribute were ever absent
(unreachable for documents built by `__init__`, which always sets it). -/
inductive SaveErr where
  | collectionMissing
  | validation (e : ValErr)
  | idNotFound
  | attrMissing
deriving DecidableEq, Repr

/-- A write issued against the collection. -/
inductive WriteOp where
  | insertOne (i : Value) (record : AList)
  | updateOne (i : Value) (setFields : AList)
deriving DecidableEq, Repr

deriving instance DecidableEq for Except

/-- Result of a `save` call: the returned document (or raised exception), the
collection state afterwards, and the writes that were issued. -/
structure SaveOut where
  result : Except SaveErr Doc
  store : Store
  writes : List WriteOp
deriving DecidableEq, Repr

/-- `update_one({'_id': i}, {'$set': changes})`: apply the `$set` to the first
record whose `_id` is `i` (identities are unique in a real collection). -/
def updateRecord (i : Value) (changes : AList) : Store → Store
  | [] => []
  | (j, record) :: rest =>
    if j = i then (j, setMany record changes) :: rest
    else (j, record) :: updateRecord i changes rest

/-- `Document.save` (document.py lines 103-132).  `hasColl` embeds
`self.collection is not None`; `sch` is the attached schema, if any;
`freshId` is the ObjectId the store assigns on an insert (pymongo's
`insert_one` also adds it to the passed dict, so the saved document's own
`_id` attribute is set to it). -/
def save (d : Doc) (st : Store) (hasColl : Bool) (sch : Option Schema) (freshId : Nat) :
    SaveOut :=
  if hasColl = false then ⟨Except.error SaveErr.collectionMissing, st, []⟩
  else
    match (match sch with
           | some s => validate s d
           | none => Except.ok ()) with
    | Except.error e => ⟨Except.error (SaveErr.validation e), st, []⟩
    | Except.ok _ =>
      match lookupKey "_id" d.attrs with
      | none => ⟨Except.error SaveErr.attrMissing, st, []⟩
      | some i =>
        if i = Value.vnull then
          ⟨Except.ok ⟨removeKey "_id" d.attrs ++ [("_id", Value.voidd freshId)]⟩,
           (Value.voidd freshId, ("_id", Value.voidd freshId) :: removeKey "_id" d.attrs) :: st,
           [WriteOp.insertOne (Value.voidd freshId)
             (("_id", Value.voidd freshId) :: removeKey "_id" d.attrs)]⟩
        else
          if d.has_changed st = [] then ⟨Except.ok d, st, []⟩
          else
            match lookupKey i st with
            | none =>
              ⟨Except.error SaveErr.idNotFound, st, [WriteOp.updateOne i (d.has_changed st)]⟩
            | some _ =>
              ⟨Except.ok d, updateRecord i (d.has_changed st) st,
               [WriteOp.updateOne i (d.has_changed st)]⟩

/-! ## `Document.__init__` (document.py lines 43-73) and ObjectId parsing -/

/-- A hexadecimal digit, as accepted by `bson.ObjectId`. -/
def isHexDigit (c : Char) : Bool :=
  (decide ('0' ≤ c) && decide (c ≤ '9')) ||
  (decide ('a' ≤ c) && decide (c ≤ 'f')) ||
  (decide ('A' ≤ c) && decide (c ≤ 'F'))

/-- Numeric value of a hexadecimal digit. -/
def hexVal (c : Char) : Nat :=
  if decide ('0' ≤ c) && decide (c ≤ '9') then c.toNat - '0'.toNat
  else if decide ('a' ≤ c) && decide (c ≤ 'f') then c.toNat - 'a'.toNat + 10
  else c.toNat - 'A'.toNat + 10

/-- `bson.ObjectId(s)` for a string argument: succeeds exactly when `s` is a
string of 24 hexadecimal characters, and otherwise raises
`bson.errors.InvalidId`. -/
def parseObjectId (s : String) : Option Nat :=
  if s.data.length = 24 ∧ s.data.all isHexDigit = true then
    some (s.data.foldl (fun a c => a * 16 + hexVal c) 0)
  else none

/-- `bson.ObjectId(str(value))` as used on line 68: `str` of `None`, a bool or
an int renders the usual Python text, which is then parsed as an ObjectId;
`str` of an ObjectId is its 24-character hex form, which reparses to the same
identity. -/
def coerceId : Value → Option Nat
  | Value.vnull => parseObjectId "None"
  | Value.vbool true => parseObjectId "True"
  | Value.vbool false => parseObjectId "False"
  | Value.vint n => parseObjectId (toString n)
  | Value.vstr s => parseObjectId s
  | Value.voidd n => some n

/-- Exceptions raised by `Document.__init__`: `TypeError` for a positional
argument that is not a dict (in particular `Document(None)`), `ValueError`
for an `_id` that fails to parse as an ObjectId. -/
inductive InitErr where
  | typeError
  | valueError
deriving DecidableEq, Repr

/-- `Document.__init__` (document.py lines 43-73), called with one positional
argument that is either a dict (`some as_dict`) or not a dict (`none`, the
`Document(None)` case, which raises `TypeError`).  When `'_id'` is absent the
attribute is initialised to `None` first, then the dict entries are appended.
When `'_id'` is present it is parsed as an ObjectId (raising `ValueError` on
failure), but the subsequent `self.__dict__.update(as_dict)` on line 73
overwrites the parsed attribute with the raw value from the dict, so the raw
value is what remains in `__dict__`. -/
def initDoc : Option AList → Except InitErr Doc
  | none => Except.error InitErr.typeError
  | some as_dict =>
    match lookupKey "_id" as_dict with
    | none => Except.ok ⟨("_id", Value.vnull) :: as_dict⟩
    | some v =>
      match coerceId v with
      | none => Except.error InitErr.valueError
      | some _ => Except.ok ⟨("_id", v) :: removeKey "_id" as_dict⟩

/-! ## `Document.get_by_id` (document.py lines 213-223) -/

/-- Exceptions that can escape `get_by_id`: only `bson.errors.InvalidId` is
caught there, so the `TypeError`/`ValueError` raised by `Document.__init__`
propagate. -/
inductive GetErr where
  | typeError
  | valueError
deriving DecidableEq, Repr

/-- `Document.get_by_id` (document.py lines 213-223): parse the id string
(returning `None` when `bson.errors.InvalidId` is raised), then
`cls(cls.collection.find_one({'_id': oid}))`.  When `find_one` finds no
record it returns Python `None`, and `Document.__init__` then raises
`TypeError`, which is not caught. -/
def get_by_id (st : Store) (idStr : String) : Except GetErr (Option Doc) :=
  match parseObjectId idStr with
  | none => Except.ok none
  | some oid =>
    match lookupKey (Value.voidd oid) st with
    | none =>
      match initDoc none with
      | Except.ok d => Except.ok (some d)
      | Except.error InitErr.typeError => Except.error GetErr.typeError
      | Except.error InitErr.valueError => Except.error GetErr.valueError
    | some record =>
      match initDoc (some record) with
      | Except.ok d => Except.ok (some d)
      | Except.error InitErr.typeError => Except.error GetErr.typeError
      | Except.error InitErr.valueError => Except.error GetErr.valueError

/-! ## `Document.insert_many` (document.py lines 225-236) -/

/-- The Python exception classes the modelled paths can raise. -/
inductive PyExc where
  | typeError
  | valueError
  | attributeError
  | mongoDBCollectionError
  | mongoFieldError
deriving DecidableEq, Repr

/-- Exception class raised for each constructor error. -/
def initErrExc : InitErr → PyExc
  | InitErr.typeError => PyExc.typeError
  | InitErr.valueError => PyExc.valueError

/-- Exception class raised for each validation error. -/
def valErrExc : ValErr → PyExc
  | ValErr.invalidField _ => PyExc.valueError
  | ValErr.requiredMissing _ => PyExc.valueError
  | ValErr.wrongType _ => PyExc.typeError
  | ValErr.notInSchema _ => PyExc.mongoFieldError

/-- Exception class raised for each save error. -/
def saveErrExc : SaveErr → PyExc
  | SaveErr.collectionMissing => PyExc.mongoDBCollectionError
  | SaveErr.validation e => valErrExc e
  | SaveErr.idNotFound => PyExc.valueError
  | SaveErr.attrMissing => PyExc.attributeError

/-- Modelled from the spec: whether an exception class is a
`pymongo.errors.PyMongoError` (the only class `insert_many` catches).
`ValueError`, `TypeError` and `AttributeError` are Python builtins and not
pymongo errors; `MongoDBCollectionError` and `MongoFieldError` are, per the
spec's error taxonomy (§7), the library's own exception classes (defined in
`mongeasy_exceptions.py`, which is not among the provided sources), distinct
from the backing store client's errors.  So none of the exceptions the
modelled code paths raise is a `PyMongoError`. -/
def isPyMongoError : PyExc → Bool := fun _ => false

/-- `Document.insert_many` (document.py lines 225-236): for each item,
`cls(item).save()` inside a `try` whose `except` clause catches only
`pymongo.errors.PyMongoError` (logging and skipping the item); any other
exception propagates.  `n` numbers the ObjectIds the store assigns. -/
def insert_many : List AList → Store → Bool → Option Schema → Nat → Except PyExc Store
  | [], st, _, _, _ => Except.ok st
  | item :: rest, st, hasColl, sch, n =>
    match initDoc (some item) with
    | Except.error e => Except.error (initErrExc e)
    | Except.ok d =>
      let out := save d st hasColl sch n
      match out.result with
      | Except.error e =>
        if isPyMongoError (saveErrExc e) then insert_many rest out.store hasColl sch (n + 1)
        else Except.error (saveErrExc e)
      | Except.ok _ => insert_many rest out.store hasColl sch (n + 1)

/-! ## `delete` (document.py lines 167-178 and 261-272) -/

/-- Exceptions the instance-level `delete` can raise. -/
inductive DelErr where
  | collectionMissing
  | unsavedDoc
  | attrMissing
deriving DecidableEq, Repr

/-- `delete_one({'_id': i})`: remove the first record with identity `i`. -/
def deleteFirst (i : Value) : Store → Store
  | [] => []
  | (j, record) :: rest => if j = i then rest else (j, record) :: deleteFirst i rest

/-- The instance-level `Document.delete` as written at document.py lines
167-178: requires a bound collection and a non-null `_id`, then issues
`delete_one({'_id': self._id})`.  In the class body this definition is later
shadowed by the classmethod `delete` on lines 261-272, so it is never the
method actually bound to the name `delete`. -/
def delete_instance (d : Doc) (st : Store) (hasColl : Bool) : Except DelErr Store :=
  if hasColl = false then Except.error DelErr.collectionMissing
  else
    match lookupKey "_id" d.attrs with
    | none => Except.error DelErr.attrMissing
    | some i =>
      if i = Value.vnull then Except.error DelErr.unsavedDoc
      else Except.ok (deleteFirst i st)

/-- Whether a record matches a flat equality query, MongoDB-style: every
`(field, value)` pair of the query must be present in the record. -/
def recordMatches (record : AList) (query : AList) : Bool :=
  query.all (fun kv => decide (lookupKey kv.1 record = some kv.2))

/-- The classmethod `Document.delete` (document.py lines 261-272): normalises
its kwargs to a query dict and issues `delete_many(query)`, removing every
matching record. -/
def delete_classmethod (st : Store) (query : AList) : Store :=
  st.filter (fun r => !(recordMatches r.2 query))

/-- What `doc.delete()` actually runs: the classmethod `delete` on lines
261-272 is defined after the instance method on lines 167-178 in the same
class body, so it rebinds the name `delete`; calling it on an instance
invokes the classmethod with no keyword arguments, i.e. with the empty query,
regardless of the instance's state. -/
def Doc.delete (_d : Doc) (st : Store) : Store :=
  delete_classmethod st []

/-! ## `ResultList.reduce` and `ResultList.group_by` (result_list.py) -/

/-- The `TypeError` raised by `functools.reduce` on an empty sequence with no
initial value. -/
inductive ReduceErr where
  | typeError
deriving DecidableEq, Repr

/-- `functools.reduce(f, l)` with no initial value: raises `TypeError` on an
empty sequence, otherwise folds starting from the first element. -/
def pyReduce {α : Type} (f : α → α → α) : List α → Except ReduceErr α
  | [] => Except.error ReduceErr.typeError
  | x :: xs => Except.ok (xs.foldl f x)

/-- `ResultList.reduce` (result_list.py lines 62-72): uses the supplied
initial value when it `is not None` (so an initial value of `0` counts),
otherwise delegates to the no-initial form of `functools.reduce`. -/
def ResultList.reduce {α : Type} (f : α → α → α) (l : List α) (initial : Option α) :
    Except ReduceErr α :=
  match initial with
  | some i => Except.ok (l.foldl f i)
  | none => pyReduce f l

/-- One loop iteration of `ResultList.group_by`: append the element to its
group if the key already exists, else add a new group at the end (a Python
dict keeps insertion order). -/
def addToGroup {α κ : Type} [DecidableEq κ] (k : κ) (x : α) :
    List (κ × List α) → List (κ × List α)
  | [] => [(k, [x])]
  | (k₂, xs) :: rest =>
    if k₂ = k then (k₂, xs ++ [x]) :: rest else (k₂, xs) :: addToGroup k x rest

/-- `ResultList.group_by` (result_list.py lines 83-97): fold over the list,
grouping elements by `keyfn`, keys in first-seen order. -/
def group_by {α κ : Type} [DecidableEq κ] (keyfn : α → κ) (l : List α) :
    List (κ × List α) :=
  l.foldl (fun gs x => addToGroup (keyfn x) x gs) []

/-- The keys of a list in first-seen order, used to state the key-order
property of `group_by`. -/
def firstSeen {κ : Type} [DecidableEq κ] (l : List κ) : List κ :=
  l.foldl (fun acc k => if k ∈ acc then acc else acc ++ [k]) []

/-! ## Association-list lemmas -/

theorem lookupKey_nil {α β : Type} [DecidableEq α] (k : α) :
    lookupKey k ([] : List (α × β)) = none := rfl

theorem lookupKey_cons {α β : Type} [DecidableEq α] (k a : α) (b : β) (l : List (α × β)) :
    lookupKey k ((a, b) :: l) = if a = k then some b else lookupKey k l := rfl

theorem lookupKey_eq_none {α β : Type} [DecidableEq α] (k : α) (l : List (α × β)) :
    lookupKey k l = none ↔ k ∉ l.map Prod.fst := by
  induction l with
  | nil => simp [lookupKey]
  | cons p rest ih =>
    obtain ⟨a, b⟩ := p
    by_cases h : a = k
    · subst h
      simp [lookupKey_cons]
    · simp [lookupKey_cons, h, ih, Ne.symm h]

theorem mem_of_lookupKey {α β : Type} [DecidableEq α] {k : α} {v : β} {l : List (α × β)}
    (h : lookupKey k l = some v) : (k, v) ∈ l := by
  induction l with
  | nil => simp [lookupKey] at h
  | cons p rest ih =>
    obtain ⟨a, b⟩ := p
    rw [lookupKey_cons] at h
    by_cases hak : a = k
    · subst hak
      simp at h
      simp [h]
    · simp [hak] at h
      exact List.mem_cons_of_mem _ (ih h)

theorem lookupKey_of_mem_nodup {α β : Type} [DecidableEq α] {k : α} {v : β} {l : List (α × β)}
    (hm : (k, v) ∈ l) (hnd : (l.map Prod.fst).Nodup) : lookupKey k l = some v := by
  induction l with
  | nil => simp at hm
  | cons p rest ih =>
    obtain ⟨a, b⟩ := p
    rw [List.map_cons, List.nodup_cons] at hnd
    rcases List.mem_cons.mp hm with h | h
    · rw [Prod.ext_iff] at h
      obtain ⟨h1, h2⟩ := h
      simp at h1 h2
      subst h1; subst h2
      simp [lookupKey_cons]
    · rw [lookupKey_cons]
      have hk : a ≠ k := by
        intro heq
        subst heq
        exact hnd.1 (List.mem_map.mpr ⟨(a, v), h, rfl⟩)
      simp [hk]
      exact ih h hnd.2

theorem lookupKey_append {α β : Type} [DecidableEq α] (k : α) (l₁ l₂ : List (α × β)) :
    lookupKey k (l₁ ++ l₂) =
      match lookupKey k l₁ with
      | some v => some v
      | none => lookupKey k l₂ := by
  induction l₁ with
  | nil => simp [lookupKey]
  | cons p rest ih =>
    obtain ⟨a, b⟩ := p
    by_cases h : a = k
    · simp [lookupKey_cons, h]
    · simp [lookupKey_cons, h, ih]

theorem lookupKey_removeKey {α β : Type} [DecidableEq α] (j k : α) (l : List (α × β)) :
    lookupKey k (removeKey j l) = if j = k then none else lookupKey k l := by
  induction l with
  | nil => simp [lookupKey, removeKey]
  | cons p rest ih =>
    obtain ⟨a, b⟩ := p
    by_cases haj : a = j
    · subst haj
      by_cases hak : a = k
      · subst hak
        simp [removeKey, lookupKey_cons, ih]
      · simp [removeKey, lookupKey_cons, hak, ih]
    · by_cases hak : a = k
      · subst hak
        have : j ≠ a := fun h => haj h.symm
        simp [removeKey, haj, lookupKey_cons, this]
      · simp [removeKey, haj, lookupKey_cons, hak, ih]

theorem mem_removeKey {α β : Type} [DecidableEq α] (j : α) (k : α) (v : β) (l : List (α × β)) :
    (k, v) ∈ removeKey j l ↔ (k, v) ∈ l ∧ k ≠ j := by
  induction l with
  | nil => simp [removeKey]
  | cons p rest ih =>
    obtain ⟨a, b⟩ := p
    by_cases haj : a = j
    · subst haj
      have hstep : removeKey a ((a, b) :: rest) = removeKey a rest := by
        simp [removeKey]
      rw [hstep, ih]
      constructor
      · rintro ⟨hm, hk⟩
        exact ⟨List.mem_cons_of_mem _ hm, hk⟩
      · rintro ⟨hm, hk⟩
        rcases List.mem_cons.mp hm with hm | hm
        · rw [Prod.ext_iff] at hm
          exact absurd hm.1 hk
        · exact ⟨hm, hk⟩
    · have hstep : removeKey j ((a, b) :: rest) = (a, b) :: removeKey j rest := by
        simp [removeKey, haj]
      rw [hstep]
      constructor
      · intro hm
        rcases List.mem_cons.mp hm with hm | hm
        · rw [Prod.ext_iff] at hm
          obtain ⟨h1, h2⟩ := hm
          simp only at h1 h2
          subst h1; subst h2
          exact ⟨List.mem_cons_self _ _, haj⟩
        · obtain ⟨hm2, hk⟩ := ih.mp hm
          exact ⟨List.mem_cons_of_mem _ hm2, hk⟩
      · rintro ⟨hm, hk⟩
        rcases List.mem_cons.mp hm with hm | hm
        · rw [hm]
          exact List.mem_cons_self _ _
        · exact List.mem_cons_of_mem _ (ih.mpr ⟨hm, hk⟩)

theorem lookupKey_setKey {α β : Type} [DecidableEq α] (k j : α) (v : β) (l : List (α × β)) :
    lookupKey j (setKey k v l) = if k = j then some v else lookupKey j l := by
  induction l with
  | nil => simp [setKey, lookupKey_cons, lookupKey_nil]
  | cons p rest ih =>
    obtain ⟨a, b⟩ := p
    by_cases hak : a = k
    · subst hak
      by_cases haj : a = j
      · subst haj
        simp [setKey, lookupKey_cons]
      · simp [setKey, lookupKey_cons, haj]
    · by_cases haj : a = j
      · subst haj
        have hkj : k ≠ a := fun h => hak h.symm
        simp [setKey, hak, lookupKey_cons, hkj]
      · simp [setKey, hak, lookupKey_cons, haj, ih]

theorem lookupKey_setMany {α β : Type} [DecidableEq α] (changes : List (α × β)) (base : List (α × β))
    (k : α) (hnd : (changes.map Prod.fst).Nodup) :
    lookupKey k (setMany base changes) =
      match lookupKey k changes with
      | some v => some v
      | none => lookupKey k base := by
  induction changes generalizing base with
  | nil => simp [setMany, lookupKey]
  | cons p rest ih =>
    obtain ⟨a, b⟩ := p
    rw [List.map_cons, List.nodup_cons] at hnd
    show lookupKey k (setMany (setKey a b base) rest) = _
    rw [ih (setKey a b base) hnd.2]
    by_cases hak : a = k
    · subst hak
      have hnone : lookupKey a rest = none :=
        (lookupKey_eq_none a rest).mpr hnd.1
      simp [hnone, lookupKey_cons, lookupKey_setKey]
    · rw [lookupKey_cons]
      simp only [hak, if_false]
      cases h : lookupKey k rest with
      | none => simp [lookupKey_setKey, hak]
      | some v => simp

theorem lookupKey_updateRecord (i j : Value) (changes : AList) (st : Store) :
    lookupKey j (updateRecord i changes st) =
      if i = j then Option.map (fun record => setMany record changes) (lookupKey i st)
      else lookupKey j st := by
  induction st with
  | nil => simp [updateRecord, lookupKey]
  | cons p rest ih =>
    obtain ⟨a, record⟩ := p
    by_cases hai : a = i
    · subst hai
      by_cases haj : a = j
      · subst haj
        simp [updateRecord, lookupKey_cons]
      · simp [updateRecord, lookupKey_cons, haj, Ne.symm haj]
    · by_cases haj : a = j
      · subst haj
        have hia : i ≠ a := fun h => hai h.symm
        simp [updateRecord, hai, lookupKey_cons, hia]
      · simp [updateRecord, hai, lookupKey_cons, haj, ih]

/-! ## The change tracker -/

theorem changedEntry_eq_true (st : Store) (i : Value) (k : String) (v : Value) :
    changedEntry st i k v = true ↔
      ∃ record w, lookupKey i st = some record ∧ lookupKey k record = some w ∧ w ≠ v := by
  unfold changedEntry
  cases h1 : lookupKey i st with
  | none => simp
  | some record =>
    cases h2 : lookupKey k record with
    | none => simp [h2]
    | some w => simp [h2, decide_eq_true_eq]

/-- Membership characterization of the changed-field mapping, shared by the
proofs below. -/
theorem mem_has_changed_char (d : Doc) (st : Store) (k : String) (v : Value) :
    (k, v) ∈ d.has_changed st ↔
      ((k, v) ∈ d.attrs ∧ k ≠ "_id" ∧
       ∃ i record w, lookupKey "_id" d.attrs = some i ∧ i ≠ Value.vnull ∧
         lookupKey i st = some record ∧ lookupKey k record = some w ∧ w ≠ v) := by
  unfold Doc.has_changed
  cases hid : lookupKey "_id" d.attrs with
  | none => simp
  | some i =>
    by_cases hnull : i = Value.vnull
    · subst hnull
      simp
    · simp only [if_neg hnull, List.mem_filter, Bool.and_eq_true, decide_eq_true_eq,
        changedEntry_eq_true, Option.some.injEq]
      constructor
      · rintro ⟨hmem, hk, record, w, hrec, hw, hne⟩
        exact ⟨hmem, hk, i, record, w, ⟨rfl, hnull, hrec, hw, hne⟩⟩
      · rintro ⟨hmem, hk, i₂, record, w, hi₂, _, hrec, hw, hne⟩
        subst hi₂
        exact ⟨hmem, hk, record, w, hrec, hw, hne⟩

/-- C1 (amended): for a document with a non-null identity, `has_changed`
contains exactly the pairs `(k, v)` of the in-memory dict such that `k` is not
`'_id'`, a record for the identity exists server-side, the key is present in
that record, and the stored value differs from the in-memory one.  Fields
present only in memory (absent server-side) are not reported. -/
theorem has_changed_mem_iff (d : Doc) (st : Store) (k : String) (v : Value) :
    (k, v) ∈ d.has_changed st ↔
      ((k, v) ∈ d.attrs ∧ k ≠ "_id" ∧
       ∃ i record w, lookupKey "_id" d.attrs = some i ∧ i ≠ Value.vnull ∧
         lookupKey i st = some record ∧ lookupKey k record = some w ∧ w ≠ v) :=
  mem_has_changed_char d st k v

/-- C1 counterexample: a field (`"age"`) present in memory but absent
server-side, on a document with non-null identity whose record exists; the
claim says `has_changed` must include it mapped to the in-memory value, but
the code returns the empty mapping. -/
theorem has_changed_absent_field_counterexample :
    lookupKey "_id" (Doc.attrs ⟨[("_id", Value.voidd 1), ("age", Value.vint 30)]⟩) =
        some (Value.voidd 1) ∧
    ("age", Value.vint 30) ∈ Doc.attrs ⟨[("_id", Value.voidd 1), ("age", Value.vint 30)]⟩ ∧
    lookupKey (Value.voidd 1) [(Value.voidd 1, [("_id", Value.voidd 1)])] =
        some [("_id", Value.voidd 1)] ∧
    lookupKey "age" [("_id", Value.voidd 1)] = none ∧
    Doc.has_changed ⟨[("_id", Value.voidd 1), ("age", Value.vint 30)]⟩
        [(Value.voidd 1, [("_id", Value.voidd 1)])] = [] := by
  refine ⟨rfl, ?_, rfl, rfl, rfl⟩
  decide

/-- C2: evaluating the code at the failing input.  A document that has never
been saved (identity `None`) with a non-empty field map: `is_saved()` returns
`True` (because `has_changed` returns `{}` whenever `self._id is None`),
while the claim — and the method's own docstring — require `False` for a
document that has not been saved. -/
theorem is_saved_unsaved_doc_eval :
    Doc.is_saved ⟨[("_id", Value.vnull), ("name", Value.vstr "Alice")]⟩ [] = true := by
  decide

/-- C10: the mapping returned by `has_changed` never contains the identity
key `'_id'` (the per-field loop skips it), so the `$set` payload of the
partial update issued by `save` — which is exactly this mapping — never
rewrites the identity field. -/
theorem has_changed_no_id (d : Doc) (st : Store) :
    lookupKey "_id" (d.has_changed st) = none := by
  unfold Doc.has_changed
  cases lookupKey "_id" d.attrs with
  | none => rfl
  | some i =>
    dsimp only
    by_cases hnull : i = Value.vnull
    · simp [hnull, lookupKey]
    · rw [if_neg hnull, lookupKey_eq_none]
      intro hmem
      rcases List.mem_map.mp hmem with ⟨⟨k, v⟩, hin, hk⟩
      have hp := (List.mem_filter.mp hin).2
      rw [Bool.and_eq_true, decide_eq_true_eq] at hp
      exact hp.1 hk

/-! ## `get_by_id` -/

/-- C3: evaluating the code at the failing input.  For a well-formed identity
string with no matching record, `get_by_id` does not return `None`: it passes
`find_one`'s `None` result to `Document.__init__`, which raises `TypeError`
(not caught, since only `bson.errors.InvalidId` is).  For a malformed
identity string it does return `None` as claimed. -/
theorem get_by_id_eval :
    get_by_id [] "507f1f77bcf86cd799439011" = Except.error GetErr.typeError ∧
    get_by_id [] "not-a-valid-id" = Except.ok none := by
  exact ⟨rfl, rfl⟩

/-! ## `delete` -/

/-- C7: evaluating the code at the failing input.  The classmethod `delete`
(document.py lines 261-272) is defined after the instance method (lines
167-178) in the same class body and rebinds the name, so `doc.delete()`
executes `delete_many({})`: on a two-record store it removes *both* records —
not just the one addressed by the document's identity — and on a document with
null identity it does not fail.  The shadowed instance method, evaluated
directly, has exactly the claimed behavior: it removes the single addressed
record and raises on a null identity. -/
theorem delete_shadowed_eval :
    Doc.delete ⟨[("_id", Value.voidd 1), ("a", Value.vint 1)]⟩
        [(Value.voidd 1, [("_id", Value.voidd 1), ("a", Value.vint 1)]),
         (Value.voidd 2, [("_id", Value.voidd 2), ("b", Value.vint 2)])] = [] ∧
    Doc.delete ⟨[("_id", Value.vnull)]⟩
        [(Value.voidd 1, [("_id", Value.voidd 1), ("a", Value.vint 1)]),
         (Value.voidd 2, [("_id", Value.voidd 2), ("b", Value.vint 2)])] = [] ∧
    delete_instance ⟨[("_id", Value.voidd 1), ("a", Value.vint 1)]⟩
        [(Value.voidd 1, [("_id", Value.voidd 1), ("a", Value.vint 1)]),
         (Value.voidd 2, [("_id", Value.voidd 2), ("b", Value.vint 2)])] true =
      Except.ok [(Value.voidd 2, [("_id", Value.voidd 2), ("b", Value.vint 2)])] ∧
    delete_instance ⟨[("_id", Value.vnull)]⟩
        [(Value.voidd 1, [("_id", Value.voidd 1), ("a", Value.vint 1)]),
         (Value.voidd 2, [("_id", Value.voidd 2), ("b", Value.vint 2)])] true =
      Except.error DelErr.unsavedDoc ∧
    delete_instance ⟨[("_id", Value.voidd 1)]⟩ [] false = Except.error DelErr.collectionMissing :=
  ⟨rfl, rfl, rfl, rfl, rfl⟩

/-! ## `ResultList.reduce` -/

/-- C8: `reduce(fn)` on the empty sequence fails with the propagated
`TypeError` from `functools.reduce`, while `reduce(fn, initial)` on the empty
sequence returns the initial value (the `is not None` test means an initial
value of `0` is used, not discarded). -/
theorem reduce_empty_spec {α : Type} (f : α → α → α) (i : α) :
    ResultList.reduce f ([] : List α) none = Except.error ReduceErr.typeError ∧
    ResultList.reduce f ([] : List α) (some i) = Except.ok i :=
  ⟨rfl, rfl⟩

/-! ## `save` with a schema -/

/-- C4: on a document with an attached schema, `save` runs validation before
touching the store; if validation fails, the whole save fails with the
validation error, the collection is left exactly as it was, and no insert and
no update is issued. -/
theorem save_validation_failure (d : Doc) (st : Store) (s : Schema) (n : Nat) (e : ValErr)
    (hv : validate s d = Except.error e) :
    save d st true (some s) n = ⟨Except.error (SaveErr.validation e), st, []⟩ := by
  unfold save
  simp [hv]

/-- A schema declaring a required string field `"name"`, used as the concrete
witness input for the failing-validation save. -/
def schemaName : Schema := [("name", ⟨VType.tStr, true, none⟩)]

theorem save_validation_failure_witness :
    validate schemaName ⟨[("_id", Value.vnull), ("age", Value.vint 3)]⟩ =
      Except.error (ValErr.requiredMissing "name") ∧
    save ⟨[("_id", Value.vnull), ("age", Value.vint 3)]⟩
        [(Value.voidd 9, [("_id", Value.voidd 9)])] true (some schemaName) 0 =
      ⟨Except.error (SaveErr.validation (ValErr.requiredMissing "name")),
       [(Value.voidd 9, [("_id", Value.voidd 9)])], []⟩ :=
  ⟨rfl, save_validation_failure _ _ _ _ _ rfl⟩

/-! ## `insert_many` -/

/-- C5 counterexample: with a schema attached, a per-item save failure that is
not a pymongo error — here the `ValueError` for a missing required field —
propagates out of `insert_many`, so the operation as a whole fails instead of
logging and skipping the item. -/
theorem insert_many_fails_counterexample :
    insert_many [[("age", Value.vint 3)]] [] true (some schemaName) 0 =
      Except.error PyExc.valueError := rfl

/-- C5 (amended): for each item a Document is constructed and saved, but only
save failures that are `pymongo.errors.PyMongoError` are logged and skipped;
a save failure with any other exception propagates and aborts `insert_many`
with that exception. -/
theorem insert_many_nonpymongo_propagates (item : AList) (rest : List AList) (st : Store)
    (hasColl : Bool) (sch : Option Schema) (n : Nat) (d : Doc) (e : SaveErr)
    (h1 : initDoc (some item) = Except.ok d)
    (h2 : (save d st hasColl sch n).result = Except.error e)
    (h3 : isPyMongoError (saveErrExc e) = false) :
    insert_many (item :: rest) st hasColl sch n = Except.error (saveErrExc e) := by
  unfold insert_many
  rw [h1]
  simp only [h2, h3, Bool.false_eq_true, if_false]

theorem insert_many_nonpymongo_propagates_witness :
    initDoc (some [("age", Value.vint 3)]) =
      Except.ok ⟨[("_id", Value.vnull), ("age", Value.vint 3)]⟩ ∧
    (save ⟨[("_id", Value.vnull), ("age", Value.vint 3)]⟩ [] true (some schemaName) 0).result =
      Except.error (SaveErr.validation (ValErr.requiredMissing "name")) ∧
    insert_many [[("age", Value.vint 3)]] [] true (some schemaName) 0 =
      Except.error PyExc.valueError :=
  ⟨rfl, rfl,
   insert_many_nonpymongo_propagates [("age", Value.vint 3)] [] [] true (some schemaName) 0
     ⟨[("_id", Value.vnull), ("age", Value.vint 3)]⟩
     (SaveErr.validation (ValErr.requiredMissing "name")) rfl rfl rfl⟩

/-! ## Idempotence of `save` -/

theorem mem_unique_of_nodup {α β : Type} [DecidableEq α] {k : α} {v w : β} {l : List (α × β)}
    (hnd : (l.map Prod.fst).Nodup) (h1 : (k, v) ∈ l) (h2 : (k, w) ∈ l) : v = w := by
  have e1 := lookupKey_of_mem_nodup h1 hnd
  have e2 := lookupKey_of_mem_nodup h2 hnd
  rw [e1] at e2
  exact Option.some.inj e2

theorem has_changed_eq_filter (d : Doc) (st : Store) (i : Value)
    (hid : lookupKey "_id" d.attrs = some i) (hnull : i ≠ Value.vnull) :
    d.has_changed st =
      List.filter (fun kv => decide (kv.1 ≠ "_id") && changedEntry st i kv.1 kv.2) d.attrs := by
  unfold Doc.has_changed
  rw [hid]
  exact if_neg hnull

theorem has_changed_keys_nodup (d : Doc) (st : Store)
    (hnd : (d.attrs.map Prod.fst).Nodup) :
    ((d.has_changed st).map Prod.fst).Nodup := by
  unfold Doc.has_changed
  cases lookupKey "_id" d.attrs with
  | none => simp
  | some i =>
    dsimp only
    by_cases hnull : i = Value.vnull
    · simp [hnull]
    · rw [if_neg hnull]
      exact List.Nodup.sublist (List.Sublist.map Prod.fst (List.filter_sublist _)) hnd

theorem validateAttrs_cons (s : Schema) (k : String) (v : Value) (rest : AList) :
    validateAttrs s ((k, v) :: rest) =
      if decide (k ≠ "_id") && (lookupKey k s).isNone then Except.error (ValErr.notInSchema k)
      else validateAttrs s rest := rfl

theorem validateAttrs_append (s : Schema) (l₁ l₂ : AList) :
    validateAttrs s (l₁ ++ l₂) =
      match validateAttrs s l₁ with
      | Except.ok _ => validateAttrs s l₂
      | Except.error e => Except.error e := by
  induction l₁ with
  | nil => simp [validateAttrs]
  | cons p rest ih =>
    obtain ⟨k, v⟩ := p
    show validateAttrs s ((k, v) :: (rest ++ l₂)) = _
    rw [validateAttrs_cons s k v (rest ++ l₂), validateAttrs_cons s k v rest]
    by_cases h : (decide (k ≠ "_id") && (lookupKey k s).isNone) = true
    · rw [if_pos h, if_pos h]
    · rw [if_neg h, if_neg h, ih]

theorem validateAttrs_removeKey_id (s : Schema) (l : AList) :
    validateAttrs s (removeKey "_id" l) = validateAttrs s l := by
  induction l with
  | nil => simp [removeKey]
  | cons p rest ih =>
    obtain ⟨k, v⟩ := p
    by_cases hk : k = "_id"
    · subst hk
      have hstep : removeKey "_id" (("_id", v) :: rest) = removeKey "_id" rest := by
        simp [removeKey]
      rw [hstep, ih]
      simp [validateAttrs]
    · have hstep : removeKey "_id" ((k, v) :: rest) = (k, v) :: removeKey "_id" rest := by
        simp [removeKey, hk]
      rw [hstep]
      show (if decide (k ≠ "_id") && (lookupKey k s).isNone then _ else validateAttrs s (removeKey "_id" rest)) = _
      rw [ih]
      rfl

theorem validateAttrs_id_singleton (s : Schema) (x : Value) :
    validateAttrs s [("_id", x)] = Except.ok () := by
  simp [validateAttrs]

theorem validateFields_congr (s : Schema) (d₁ d₂ : Doc)
    (h : ∀ name fs, (name, fs) ∈ s → fieldValue d₁ name = fieldValue d₂ name) :
    validateFields d₁ s = validateFields d₂ s := by
  induction s with
  | nil => rfl
  | cons p rest ih =>
    obtain ⟨name, fs⟩ := p
    have hv : fieldValue d₁ name = fieldValue d₂ name := h name fs (List.mem_cons_self _ _)
    show validateFields d₁ ((name, fs) :: rest) = validateFields d₂ ((name, fs) :: rest)
    simp only [validateFields, hv]
    rw [ih (fun n f hm => h n f (List.mem_cons_of_mem _ hm))]

theorem validate_ok_iff (s : Schema) (d : Doc) :
    validate s d = Except.ok () ↔
      validateFields d s = Except.ok () ∧ validateAttrs s d.attrs = Except.ok () := by
  unfold validate
  cases h : validateFields d s with
  | error e => simp
  | ok u => cases u; simp

theorem fieldValue_insert (d : Doc) (n : Nat) (name : String) (hname : name ≠ "_id") :
    fieldValue ⟨removeKey "_id" d.attrs ++ [("_id", Value.voidd n)]⟩ name = fieldValue d name := by
  unfold fieldValue
  show (match lookupKey name (removeKey "_id" d.attrs ++ [("_id", Value.voidd n)]) with
        | some v => v
        | none => Value.vnull) = _
  rw [lookupKey_append, lookupKey_removeKey, if_neg (Ne.symm hname)]
  cases h : lookupKey name d.attrs with
  | some v => simp
  | none => simp [lookupKey_cons, lookupKey_nil, if_neg (Ne.symm hname)]

theorem validate_insert_ok (s : Schema) (d : Doc) (n : Nat)
    (hs : lookupKey "_id" s = none)
    (hok : validate s d = Except.ok ()) :
    validate s ⟨removeKey "_id" d.attrs ++ [("_id", Value.voidd n)]⟩ = Except.ok () := by
  rw [validate_ok_iff] at hok ⊢
  obtain ⟨hf, ha⟩ := hok
  constructor
  · rw [← hf]
    apply validateFields_congr
    intro name fs hm
    have hname : name ≠ "_id" := by
      intro heq
      subst heq
      rw [lookupKey_eq_none] at hs
      exact hs (List.mem_map.mpr ⟨("_id", fs), hm, rfl⟩)
    exact fieldValue_insert d n name hname
  · show validateAttrs s (removeKey "_id" d.attrs ++ [("_id", Value.voidd n)]) = Except.ok ()
    rw [validateAttrs_append, validateAttrs_removeKey_id, ha, validateAttrs_id_singleton]

theorem lookupKey_id_insert (d : Doc) (n : Nat) :
    lookupKey "_id" (removeKey "_id" d.attrs ++ [("_id", Value.voidd n)]) =
      some (Value.voidd n) := by
  rw [lookupKey_append, lookupKey_removeKey]
  simp [lookupKey_cons]

theorem has_changed_after_insert (d : Doc) (st : Store) (n : Nat)
    (hnd : (d.attrs.map Prod.fst).Nodup) :
    Doc.has_changed ⟨removeKey "_id" d.attrs ++ [("_id", Value.voidd n)]⟩
      ((Value.voidd n, ("_id", Value.voidd n) :: removeKey "_id" d.attrs) :: st) = [] := by
  rw [has_changed_eq_filter _ _ (Value.voidd n) (lookupKey_id_insert d n) (by simp)]
  rw [List.filter_eq_nil_iff]
  rintro ⟨k, v⟩ hmem
  rcases List.mem_append.mp hmem with hmem | hmem
  · rw [mem_removeKey] at hmem
    obtain ⟨hmem, hk⟩ := hmem
    rw [Bool.and_eq_true, decide_eq_true_eq]
    rintro ⟨-, hch⟩
    rw [changedEntry_eq_true] at hch
    obtain ⟨record, w, hrecord, hw, hne⟩ := hch
    rw [lookupKey_cons, if_pos rfl] at hrecord
    rw [← Option.some.inj hrecord, lookupKey_cons, if_neg (Ne.symm hk),
        lookupKey_removeKey, if_neg (Ne.symm hk), lookupKey_of_mem_nodup hmem hnd] at hw
    exact hne (Option.some.inj hw).symm
  · rw [List.mem_singleton] at hmem
    rw [Prod.ext_iff] at hmem
    obtain ⟨h1, -⟩ := hmem
    have hk2 : k = "_id" := h1
    subst hk2
    simp

theorem has_changed_after_update (d : Doc) (st : Store) (i : Value) (record : AList)
    (hnd : (d.attrs.map Prod.fst).Nodup)
    (hid : lookupKey "_id" d.attrs = some i)
    (hnull : i ≠ Value.vnull)
    (hrec : lookupKey i st = some record) :
    Doc.has_changed d (updateRecord i (d.has_changed st) st) = [] := by
  have hndC : ((d.has_changed st).map Prod.fst).Nodup := has_changed_keys_nodup d st hnd
  rw [has_changed_eq_filter _ _ i hid hnull, List.filter_eq_nil_iff]
  rintro ⟨k, v⟩ hmem
  rw [Bool.and_eq_true, decide_eq_true_eq]
  rintro ⟨hk, hch⟩
  rw [changedEntry_eq_true] at hch
  obtain ⟨record₂, w, hrecord₂, hw, hne⟩ := hch
  rw [lookupKey_updateRecord, if_pos rfl, hrec] at hrecord₂
  have hrec₂ : record₂ = setMany record (d.has_changed st) :=
    (Option.some.inj hrecord₂).symm
  rw [hrec₂] at hw
  rw [lookupKey_setMany _ _ _ hndC] at hw
  cases hC : lookupKey k (d.has_changed st) with
  | some u =>
    rw [hC] at hw
    have humem : (k, u) ∈ d.has_changed st := mem_of_lookupKey hC
    rw [mem_has_changed_char] at humem
    have huv : u = v := mem_unique_of_nodup hnd humem.1 hmem
    rw [huv] at hw
    exact hne (Option.some.inj hw).symm
  | none =>
    rw [hC] at hw
    -- the field was not among the changed ones, so its stored value equals `v`
    have hnotmem : (k, v) ∉ d.has_changed st := by
      intro hin
      rw [lookupKey_of_mem_nodup hin hndC] at hC
      cases hC
    rw [mem_has_changed_char] at hnotmem
    push_neg at hnotmem
    have := hnotmem hmem hk i record w hid hnull hrec hw
    exact hne this

/-- C6: calling `save()` a second time with no intervening mutation issues no
second write.  If a first `save` on a bound collection succeeds — returning
document `d₂` and leaving the collection in state `st₂` — then a second
`save` of `d₂` against `st₂` computes an empty changed-field set, issues no
insert and no update, and returns `d₂` and `st₂` unchanged.  The hypotheses
state the standing Python-dict invariant that attribute keys are unique, and
that the attached schema (if any) does not declare the reserved `'_id'`
field. -/
theorem save_idempotent (d : Doc) (st : Store) (sch : Option Schema) (n₁ n₂ : Nat)
    (d₂ : Doc) (st₂ : Store) (ws : List WriteOp)
    (hnd : (d.attrs.map Prod.fst).Nodup)
    (hsch : ∀ s, sch = some s → lookupKey "_id" s = none)
    (h : save d st true sch n₁ = ⟨Except.ok d₂, st₂, ws⟩) :
    save d₂ st₂ true sch n₂ = ⟨Except.ok d₂, st₂, []⟩ := by
  unfold save at h ⊢
  rw [if_neg (by simp)] at h ⊢
  cases hsval : (match sch with
                 | some s => validate s d
                 | none => Except.ok ()) with
  | error e =>
    rw [hsval] at h
    simp at h
  | ok u =>
    cases u
    rw [hsval] at h
    dsimp only at h
    cases hidv : lookupKey "_id" d.attrs with
    | none =>
      rw [hidv] at h
      simp at h
    | some i =>
      rw [hidv] at h
      dsimp only at h
      by_cases hnull : i = Value.vnull
      · -- insert path
        rw [if_pos hnull] at h
        simp only [SaveOut.mk.injEq, Except.ok.injEq] at h
        obtain ⟨hd₂, hst₂, hws⟩ := h
        subst hd₂
        subst hst₂
        subst hws
        have hv₂ : (match sch with
                    | some s => validate s ⟨removeKey "_id" d.attrs ++ [("_id", Value.voidd n₁)]⟩
                    | none => Except.ok ()) = Except.ok () := by
          cases sch with
          | none => rfl
          | some s => exact validate_insert_ok s d n₁ (hsch s rfl) hsval
        rw [hv₂]
        dsimp only
        rw [lookupKey_id_insert d n₁]
        dsimp only
        rw [if_neg (by simp : ¬(Value.voidd n₁ = Value.vnull))]
        rw [if_pos (has_changed_after_insert d st n₁ hnd)]
      · -- update or no-change path
        rw [if_neg hnull] at h
        by_cases hch : d.has_changed st = []
        · rw [if_pos hch] at h
          simp only [SaveOut.mk.injEq, Except.ok.injEq] at h
          obtain ⟨hd₂, hst₂, hws⟩ := h
          subst hd₂
          subst hst₂
          subst hws
          rw [hsval]
          dsimp only
          rw [hidv]
          dsimp only
          rw [if_neg hnull, if_pos hch]
        · rw [if_neg hch] at h
          cases hrec : lookupKey i st with
          | none =>
            rw [hrec] at h
            simp at h
          | some record =>
            rw [hrec] at h
            simp only [SaveOut.mk.injEq, Except.ok.injEq] at h
            obtain ⟨hd₂, hst₂, hws⟩ := h
            subst hd₂
            subst hst₂
            subst hws
            rw [hsval]
            dsimp only
            rw [hidv]
            dsimp only
            rw [if_neg hnull,
                if_pos (has_changed_after_update d st i record hnd hidv hnull hrec)]

theorem save_idempotent_witness :
    ((Doc.attrs ⟨[("_id", Value.vnull), ("age", Value.vint 30)]⟩).map Prod.fst).Nodup ∧
    save ⟨[("_id", Value.vnull), ("age", Value.vint 30)]⟩ [] true none 5 =
      ⟨Except.ok ⟨[("age", Value.vint 30), ("_id", Value.voidd 5)]⟩,
       [(Value.voidd 5, [("_id", Value.voidd 5), ("age", Value.vint 30)])],
       [WriteOp.insertOne (Value.voidd 5) [("_id", Value.voidd 5), ("age", Value.vint 30)]]⟩ ∧
    save ⟨[("age", Value.vint 30), ("_id", Value.voidd 5)]⟩
        [(Value.voidd 5, [("_id", Value.voidd 5), ("age", Value.vint 30)])] true none 9 =
      ⟨Except.ok ⟨[("age", Value.vint 30), ("_id", Value.voidd 5)]⟩,
       [(Value.voidd 5, [("_id", Value.voidd 5), ("age", Value.vint 30)])], []⟩ :=
  ⟨by decide, by decide,
   save_idempotent ⟨[("_id", Value.vnull), ("age", Value.vint 30)]⟩ [] none 5 9
     ⟨[("age", Value.vint 30), ("_id", Value.voidd 5)]⟩
     [(Value.voidd 5, [("_id", Value.voidd 5), ("age", Value.vint 30)])]
     [WriteOp.insertOne (Value.voidd 5) [("_id", Value.voidd 5), ("age", Value.vint 30)]]
     (by decide) (fun s hs => by cases hs) (by decide)⟩

/-! ## `group_by` -/

theorem addToGroup_keys {α κ : Type} [DecidableEq κ] (k : κ) (x : α)
    (gs : List (κ × List α)) :
    (addToGroup k x gs).map Prod.fst =
      if k ∈ gs.map Prod.fst then gs.map Prod.fst else gs.map Prod.fst ++ [k] := by
  induction gs with
  | nil => simp [addToGroup]
  | cons p rest ih =>
    obtain ⟨k₂, xs⟩ := p
    by_cases h : k₂ = k
    · subst h
      simp [addToGroup]
    · have hk : k ≠ k₂ := fun hh => h hh.symm
      simp only [addToGroup, if_neg h, List.map_cons, ih, List.mem_cons]
      by_cases hmem : k ∈ rest.map Prod.fst
      · simp [hmem, hk]
      · simp [hmem, hk]

theorem group_keys_general {α κ : Type} [DecidableEq κ] (keyfn : α → κ) (l : List α)
    (gs : List (κ × List α)) :
    ((l.foldl (fun a x => addToGroup (keyfn x) x a) gs).map Prod.fst) =
      (l.map keyfn).foldl (fun acc k => if k ∈ acc then acc else acc ++ [k])
        (gs.map Prod.fst) := by
  induction l generalizing gs with
  | nil => rfl
  | cons x rest ih =>
    simp only [List.foldl_cons, List.map_cons]
    rw [ih, addToGroup_keys]

theorem addToGroup_lookup {α κ : Type} [DecidableEq κ] (k j : κ) (x : α)
    (gs : List (κ × List α)) :
    lookupKey j (addToGroup k x gs) =
      if k = j then
        (match lookupKey j gs with
         | some xs => some (xs ++ [x])
         | none => some [x])
      else lookupKey j gs := by
  induction gs with
  | nil =>
    by_cases h : k = j
    · simp [addToGroup, lookupKey_cons, lookupKey_nil, h]
    · simp [addToGroup, lookupKey_cons, lookupKey_nil, h]
  | cons p rest ih =>
    obtain ⟨k₂, xs⟩ := p
    by_cases h : k₂ = k
    · subst h
      by_cases hj : k₂ = j
      · subst hj
        simp [addToGroup, lookupKey_cons]
      · simp [addToGroup, lookupKey_cons, hj]
    · by_cases hj : k₂ = j
      · subst hj
        have hkj : k ≠ k₂ := fun hh => h hh.symm
        simp [addToGroup, h, lookupKey_cons, hkj]
      · simp [addToGroup, h, lookupKey_cons, hj, ih]

theorem group_lookup_general {α κ : Type} [DecidableEq κ] [DecidableEq α] (keyfn : α → κ) (l : List α)
    (gs : List (κ × List α)) (k : κ) :
    lookupKey k (l.foldl (fun a x => addToGroup (keyfn x) x a) gs) =
      (match lookupKey k gs with
       | some xs => some (xs ++ l.filter (fun x => decide (keyfn x = k)))
       | none =>
         if l.filter (fun x => decide (keyfn x = k)) = [] then none
         else some (l.filter (fun x => decide (keyfn x = k)))) := by
  induction l generalizing gs with
  | nil =>
    cases h : lookupKey k gs with
    | some xs => simp [h]
    | none => simp [h]
  | cons x rest ih =>
    simp only [List.foldl_cons]
    rw [ih, addToGroup_lookup]
    by_cases hkx : keyfn x = k
    · rw [if_pos hkx]
      have hfil : List.filter (fun y => decide (keyfn y = k)) (x :: rest) =
          x :: List.filter (fun y => decide (keyfn y = k)) rest := by
        simp [List.filter_cons, hkx]
      cases h : lookupKey k gs with
      | some xs =>
        simp only [h, hfil]
        rw [List.append_assoc]
        rfl
      | none =>
        simp only [h, hfil]
        simp
    · rw [if_neg hkx]
      have hfil : List.filter (fun y => decide (keyfn y = k)) (x :: rest) =
          List.filter (fun y => decide (keyfn y = k)) rest := by
        simp [List.filter_cons, hkx]
      rw [hfil]

theorem addToGroup_flatten_perm {α κ : Type} [DecidableEq κ] (k : κ) (x : α)
    (gs : List (κ × List α)) :
    ((addToGroup k x gs).map Prod.snd).flatten.Perm ((gs.map Prod.snd).flatten ++ [x]) := by
  induction gs with
  | nil => simp [addToGroup]
  | cons p rest ih =>
    obtain ⟨k₂, xs⟩ := p
    by_cases h : k₂ = k
    · subst h
      have hstep : addToGroup k₂ x ((k₂, xs) :: rest) = (k₂, xs ++ [x]) :: rest := by
        simp [addToGroup]
      rw [hstep]
      simp only [List.map_cons, List.flatten_cons]
      rw [List.append_assoc, List.append_assoc]
      exact List.Perm.append_left xs List.perm_append_comm
    · have hstep : addToGroup k x ((k₂, xs) :: rest) = (k₂, xs) :: addToGroup k x rest := by
        simp [addToGroup, h]
      rw [hstep]
      simp only [List.map_cons, List.flatten_cons]
      refine (List.Perm.append_left xs ih).trans ?_
      rw [List.append_assoc]

theorem group_flatten_perm_general {α κ : Type} [DecidableEq κ] (keyfn : α → κ) (l : List α)
    (gs : List (κ × List α)) :
    ((l.foldl (fun a x => addToGroup (keyfn x) x a) gs).map Prod.snd).flatten.Perm
      ((gs.map Prod.snd).flatten ++ l) := by
  induction l generalizing gs with
  | nil => simp
  | cons x rest ih =>
    simp only [List.foldl_cons]
    refine (ih (addToGroup (keyfn x) x gs)).trans ?_
    refine (List.Perm.append_right rest (addToGroup_flatten_perm (keyfn x) x gs)).trans ?_
    rw [List.append_assoc]
    exact List.Perm.refl _

theorem firstSeen_aux_nodup {κ : Type} [DecidableEq κ] (l : List κ) (acc : List κ)
    (hacc : acc.Nodup) :
    (l.foldl (fun acc k => if k ∈ acc then acc else acc ++ [k]) acc).Nodup := by
  induction l generalizing acc with
  | nil => exact hacc
  | cons x rest ih =>
    simp only [List.foldl_cons]
    apply ih
    by_cases h : x ∈ acc
    · simpa [h] using hacc
    · rw [if_neg h]
      refine List.Nodup.append hacc (List.nodup_singleton x) ?_
      intro a ha hb
      rw [List.mem_singleton] at hb
      subst hb
      exact h ha

theorem firstSeen_nodup {κ : Type} [DecidableEq κ] (l : List κ) : (firstSeen l).Nodup :=
  firstSeen_aux_nodup l [] List.nodup_nil

/-- C9: `group_by` returns (i) groups whose keys are the derived keys in
first-seen order; (ii) for each key, the group is exactly the ordered
subsequence of elements producing that key (lookup is `none` exactly when no
element produces the key); (iii) the concatenation of all groups is a
permutation of the input; and (iv) every element of the input appears in its
key's group and in no group with a different key — i.e. in exactly one
group. -/
theorem group_by_spec {α κ : Type} [DecidableEq κ] [DecidableEq α] (keyfn : α → κ) (l : List α) :
    ((group_by keyfn l).map Prod.fst = firstSeen (l.map keyfn)) ∧
    (∀ k, lookupKey k (group_by keyfn l) =
      (if l.filter (fun x => decide (keyfn x = k)) = [] then none
       else some (l.filter (fun x => decide (keyfn x = k))))) ∧
    (((group_by keyfn l).map Prod.snd).flatten.Perm l) ∧
    (∀ x, x ∈ l → ∃ xs, (keyfn x, xs) ∈ group_by keyfn l ∧ x ∈ xs ∧
      ∀ k₂ xs₂, (k₂, xs₂) ∈ group_by keyfn l → x ∈ xs₂ → k₂ = keyfn x) := by
  have hkeys : (group_by keyfn l).map Prod.fst = firstSeen (l.map keyfn) :=
    group_keys_general keyfn l []
  have hlook : ∀ k, lookupKey k (group_by keyfn l) =
      (if l.filter (fun x => decide (keyfn x = k)) = [] then none
       else some (l.filter (fun x => decide (keyfn x = k)))) := by
    intro k
    exact group_lookup_general keyfn l [] k
  have hnd : ((group_by keyfn l).map Prod.fst).Nodup := by
    rw [hkeys]
    exact firstSeen_nodup _
  refine ⟨hkeys, hlook, ?_, ?_⟩
  · have := group_flatten_perm_general keyfn l []
    simpa using this
  · intro x hx
    have hxfil : x ∈ l.filter (fun y => decide (keyfn y = keyfn x)) :=
      List.mem_filter.mpr ⟨hx, by simp⟩
    have hne : l.filter (fun y => decide (keyfn y = keyfn x)) ≠ [] := by
      intro hnil
      rw [hnil] at hxfil
      cases hxfil
    have hsome : lookupKey (keyfn x) (group_by keyfn l) =
        some (l.filter (fun y => decide (keyfn y = keyfn x))) := by
      rw [hlook (keyfn x), if_neg hne]
    refine ⟨l.filter (fun y => decide (keyfn y = keyfn x)),
      mem_of_lookupKey hsome, hxfil, ?_⟩
    intro k₂ xs₂ hmem₂ hx₂
    have hlook₂ : lookupKey k₂ (group_by keyfn l) = some xs₂ :=
      lookupKey_of_mem_nodup hmem₂ hnd
    rw [hlook k₂] at hlook₂
    by_cases hnil₂ : l.filter (fun y => decide (keyfn y = k₂)) = []
    · rw [if_pos hnil₂] at hlook₂
      cases hlook₂
    · rw [if_neg hnil₂] at hlook₂
      have hxs₂ : xs₂ = l.filter (fun y => decide (keyfn y = k₂)) :=
        (Option.some.inj hlook₂).symm
      rw [hxs₂] at hx₂
      have := (List.mem_filter.mp hx₂).2
      rw [decide_eq_true_eq] at this
      exact this.symm

theorem group_by_spec_witness :
    (3 ∈ [1, 2, 3]) ∧
    (∃ xs, ((fun n => n % 2) 3, xs) ∈ group_by (fun n : Nat => n % 2) [1, 2, 3] ∧ 3 ∈ xs ∧
      ∀ k₂ xs₂, (k₂, xs₂) ∈ group_by (fun n : Nat => n % 2) [1, 2, 3] → 3 ∈ xs₂ →
        k₂ = (fun n => n % 2) 3) :=
  ⟨by decide, (group_by_spec (fun n : Nat => n % 2) [1, 2, 3]).2.2.2 3 (by decide)⟩

end Mongeasy
